import Mathlib

/-!
Verification development for the Figma variable-exporter plugin
(`src/main.ts`).  The code's data model and its export pipeline are
shallowly embedded: JSON documents become the inductive type `J`
(JS objects are insertion-ordered association lists), Figma variables,
collections and modes become structures, and every function of
`src/main.ts` that the pipeline uses becomes a Lean function of the
same name.  JS numbers are modelled as rationals; the numeric
primitives (`Math.round(x * 255)`, `toFixed(2)`, `Number.toString`)
are implemented over numerator/denominator integer arithmetic so that
concrete runs reduce inside the kernel, with lemmas connecting them to
`Int.floor`.
-/

/-- A JSON-ish value as the plugin manipulates it: every scalar the
pipeline ever stores is a string (color strings, alias references,
`toString`-ed numbers and booleans), and the containers are JS objects,
i.e. insertion-ordered association lists. -/
inductive J where
  | str : String → J
  | obj : List (String × J) → J

/-- First-match association-list lookup: `o[k]` on a JS object. -/
def alookup {α : Type} : List (String × α) → String → Option α
  | [], _ => none
  | (k', v) :: rest, k => if k' = k then some v else alookup rest k

/-- JS property assignment `o[k] = v`: overwrite in place if the key
exists, otherwise append (JS objects keep insertion order). -/
def aset {α : Type} : List (String × α) → String → α → List (String × α)
  | [], k, v => [(k, v)]
  | (k', v') :: rest, k, v =>
    if k' = k then (k, v) :: rest else (k', v') :: aset rest k v

/-- JS `delete o[k]`. -/
def adel {α : Type} : List (String × α) → String → List (String × α)
  | [], _ => []
  | (k', v) :: rest, k => if k' = k then rest else (k', v) :: adel rest k

/-- JS `k in o`. -/
def jhasKey (fields : List (String × J)) (k : String) : Bool :=
  (alookup fields k).isSome

/-- JS `String.prototype.split` with a single-character separator:
splits at every separator character, keeping empty pieces, and always
yields at least one piece. -/
def splitCharsAux (p : Char → Bool) : List Char → List Char → List String
  | [], acc => [String.mk acc.reverse]
  | c :: rest, acc =>
    if p c then String.mk acc.reverse :: splitCharsAux p rest []
    else splitCharsAux p rest (c :: acc)

/-- `s.split(sep)` for a one-character separator class `p`. -/
def splitChars (p : Char → Bool) (s : String) : List String :=
  splitCharsAux p s.data []

/-- One decimal digit character (used by the decimal printer). -/
def decDigit (n : Nat) : Char :=
  match n % 10 with
  | 0 => '0' | 1 => '1' | 2 => '2' | 3 => '3' | 4 => '4'
  | 5 => '5' | 6 => '6' | 7 => '7' | 8 => '8' | _ => '9'

/-- Digits of a natural number, most significant first (fuel-indexed). -/
def natToDecAux : Nat → Nat → List Char
  | 0, _ => []
  | fuel + 1, n =>
    if n < 10 then [decDigit n]
    else natToDecAux fuel (n / 10) ++ [decDigit (n % 10)]

/-- Decimal rendering of a natural number, as JS prints integers. -/
def natToDec (n : Nat) : String := String.mk (natToDecAux (n + 1) n)

/-- Decimal rendering of an integer, as JS prints integer numbers. -/
def intToDec (i : Int) : String :=
  if i < 0 then "-" ++ natToDec i.natAbs else natToDec i.natAbs

/-- One lowercase hexadecimal digit character. -/
def hexDigit (n : Nat) : Char :=
  match n % 16 with
  | 0 => '0' | 1 => '1' | 2 => '2' | 3 => '3' | 4 => '4'
  | 5 => '5' | 6 => '6' | 7 => '7' | 8 => '8' | 9 => '9'
  | 10 => 'a' | 11 => 'b' | 12 => 'c' | 13 => 'd' | 14 => 'e' | _ => 'f'

/-- Hex digits of a natural number, most significant first. -/
def natToHexAux : Nat → Nat → List Char
  | 0, _ => []
  | fuel + 1, n =>
    if n < 16 then [hexDigit n]
    else natToHexAux fuel (n / 16) ++ [hexDigit (n % 16)]

/-- `n.toString(16)` for a natural number: lowercase hex. -/
def natToHex (n : Nat) : String := String.mk (natToHexAux (n + 1) n)

/-- `i.toString(16)` for an integer. -/
def intToHex (i : Int) : String :=
  if i < 0 then "-" ++ natToHex i.natAbs else natToHex i.natAbs

/-- JS `s.padStart(2, '0')`. -/
def padStart2 (s : String) : String :=
  if s.length < 2 then String.mk (List.replicate (2 - s.length) '0') ++ s else s

/-- One color channel as emitted by main.ts:
`x.toString(16).padStart(2, '0')`. -/
def hex2 (i : Int) : String := padStart2 (intToHex i)

/-- How many times `p` divides `m` (fuel-indexed helper). -/
def stripExpAux (p : Nat) : Nat → Nat → Nat
  | 0, _ => 0
  | fuel + 1, m =>
    if 2 ≤ p ∧ p ∣ m ∧ m ≠ 0 then 1 + stripExpAux p fuel (m / p) else 0

/-- Multiplicity of `p` in `m`. -/
def stripExp (p m : Nat) : Nat := stripExpAux p m m

/-- Drop the trailing `'0'` characters of a digit list. -/
def dropTrailingZeros (cs : List Char) : List Char :=
  (cs.reverse.dropWhile (fun c => c = '0')).reverse

/-- Character form of `numToString` below: sign, integer digits and,
for non-integers, a `.` and the fraction digits without trailing
zeros. -/
def numToStringChars (q : ℚ) : List Char :=
  let signChars : List Char := if q.num < 0 then ['-'] else []
  let k := max (stripExp 2 q.den) (stripExp 5 q.den)
  let scaled := q.num.natAbs * 10 ^ k / q.den
  let ip := scaled / 10 ^ k
  let fp := scaled % 10 ^ k
  let digits := natToDecAux (fp + 1) fp
  let fracDigits :=
    dropTrailingZeros (List.replicate (k - digits.length) '0' ++ digits)
  if q.den = 1 then signChars ++ natToDecAux (q.num.natAbs + 1) q.num.natAbs
  else if fracDigits.isEmpty then signChars ++ natToDecAux (ip + 1) ip
  else signChars ++ natToDecAux (ip + 1) ip ++ '.' :: fracDigits

/-- JS `Number.prototype.toString` on the rationals the model uses:
integers print as plain decimals, terminating decimal fractions print
with a `.` and no trailing zeros (exactly JS's shortest round-trip
form on decimal inputs). -/
def numToString (q : ℚ) : String := String.mk (numToStringChars q)

/-- `Math.round(q * 255)`, i.e. `⌊q * 255 + 1/2⌋`, computed over the
numerator and denominator so that the kernel can evaluate it:
`⌊(510 * num + den) / (2 * den)⌋` with floor division. -/
def jsRound255 (q : ℚ) : ℤ := (510 * q.num + (q.den : ℤ)).fdiv (2 * (q.den : ℤ))

/-- `(a / 255).toFixed(2)` for an integer byte `a`, as main.ts formats
the alpha channel: round `a / 255 * 100` to the nearest integer (ties
up) and print it with two decimal places. -/
def fixed2OfByte (a : ℤ) : String :=
  let n := (40 * a + 51).fdiv 102
  let ip := n.fdiv 100
  let f := (n - 100 * ip).natAbs
  intToDec ip ++ "." ++ (if f < 10 then "0" ++ natToDec f else natToDec f)

/-- The four Figma variable kinds (`VariableResolvedDataType`). -/
inductive VariableResolvedDataType where
  | COLOR | FLOAT | STRING | BOOLEAN
deriving DecidableEq

/-- A raw per-mode value (`VariableValue`): an RGBA quadruple with
optional alpha, a number, a string, a boolean, or an alias reference
`{type: 'VARIABLE_ALIAS', id}`. -/
inductive VariableValue where
  | color (r g b : ℚ) (a : Option ℚ)
  | float (n : ℚ)
  | str (s : String)
  | boolean (b : Bool)
  | alias (id : String)
deriving DecidableEq

/-- A mode of a collection. -/
structure VarMode where
  modeId : String
  name : String
deriving DecidableEq

/-- A variable collection. -/
structure VariableCollection where
  id : String
  name : String
  modes : List VarMode
deriving DecidableEq

/-- A Figma variable as main.ts reads it. -/
structure Variable where
  id : String
  name : String
  variableCollectionId : String
  resolvedType : VariableResolvedDataType
  valuesByMode : List (String × VariableValue)
  description : String
  scopes : List String
deriving DecidableEq

/-- A DTCG leaf token while main.ts assembles it (field names without
the `$` sigil; `tokenToJ` restores the JSON keys). -/
structure DTCGToken where
  type : String
  modes : Option (List (String × String)) := none
  value : Option String := none
  description : Option String := none

/-- `getDTCGTypeFromVariableType` of main.ts (lines 302-317). -/
def getDTCGTypeFromVariableType : VariableResolvedDataType → String
  | .COLOR => "color"
  | .FLOAT => "dimension"
  | .STRING => "string"
  | .BOOLEAN => "boolean"

/-- `name.replace(/\//g, '.')`: every slash becomes a dot. -/
def replaceSlashWithDot (s : String) : String :=
  String.mk (s.data.map (fun c => if c = '/' then '.' else c))

/-- The RGB-to-string conversion of main.ts (lines 343-359): round each
channel to a byte; full alpha gives a `#`-prefixed lowercase hex
string, otherwise an `rgba(r, g, b, a)` string with the alpha byte
printed back at two decimal places. -/
def colorString (r g b : ℚ) (a : Option ℚ) : String :=
  let rb := jsRound255 r
  let gb := jsRound255 g
  let bb := jsRound255 b
  let ab := match a with
    | some av => jsRound255 av
    | none => 255
  if ab = 255 then
    "#" ++ hex2 rb ++ hex2 gb ++ hex2 bb
  else
    "rgba(" ++ intToDec rb ++ ", " ++ intToDec gb ++ ", " ++ intToDec bb ++
      ", " ++ fixed2OfByte ab ++ ")"

/-- `value?.toString() || ''` on the non-alias raw values (the default
path of `getVariableValueForMode`); a color object reaching it prints
as JS prints plain objects. -/
def rawValueToString : VariableValue → String
  | .color _ _ _ _ => "[object Object]"
  | .float n => numToString n
  | .str s => s
  | .boolean b => if b then "true" else "false"
  | .alias _ => "[object Object]"

/-- `getVariableValueForMode` of main.ts (lines 319-362): aliases
resolve to the target's name with slashes turned into dots, wrapped in
braces, or to the raw id in braces when the target is missing; colors
of Color-kind variables become hex/rgba strings; everything else is
`toString`-ed. -/
def getVariableValueForMode (v : Variable) (value : VariableValue)
    (allVariables : List Variable) : String :=
  match value with
  | .alias aid =>
    match allVariables.find? (fun v => v.id == aid) with
    | some referencedVariable =>
      "\x7b" ++ replaceSlashWithDot referencedVariable.name ++ "\x7d"
    | none => "\x7b" ++ aid ++ "\x7d"
  | .color r g b a =>
    if v.resolvedType = .COLOR then colorString r g b a
    else rawValueToString (.color r g b a)
  | v => rawValueToString v

/-- `getFallbackMode` of main.ts (lines 294-300): only a mode named
`dark` falls back, to the first mode named `light` if there is one. -/
def getFallbackMode (modeName : String) (allModes : List VarMode) : Option VarMode :=
  if modeName = "dark" then allModes.find? (fun m => m.name == "light") else none

/-- One iteration of the mode loop of `convertVariableToDTCGToken`
(lines 228-254): record the variable's converted value for this mode,
else its fallback mode's converted value, else leave the map alone. -/
def modeValueStep (v : Variable) (allVariables : List Variable)
    (allModes : List VarMode) (modeValues : List (String × String))
    (mode : VarMode) : List (String × String) :=
  match alookup v.valuesByMode mode.modeId with
  | some value =>
    aset modeValues mode.name (getVariableValueForMode v value allVariables)
  | none =>
    match getFallbackMode mode.name allModes with
    | some fallbackMode =>
      match alookup v.valuesByMode fallbackMode.modeId with
      | some fallbackValue =>
        aset modeValues mode.name
          (getVariableValueForMode v fallbackValue allVariables)
      | none => modeValues
    | none => modeValues

/-- The per-mode value map built by `convertVariableToDTCGToken`
(lines 228-254): for each mode in collection order, take the variable's
value for that mode, else the value of its fallback mode, else skip. -/
def computeModeValues (v : Variable) (collection : VariableCollection)
    (allVariables : List Variable) : List (String × String) :=
  collection.modes.foldl (modeValueStep v allVariables collection.modes) []

/-- `convertVariableToDTCGToken` of main.ts (lines 214-292): emit
`$modes` exactly when the collection has more than one mode and the
per-mode values contain at least two distinct strings (the `Set` size
check); otherwise a single `$value` from the first mode that has one. -/
def convertVariableToDTCGToken (v : Variable)
    (collection : VariableCollection) (allVariables : List Variable) : DTCGToken :=
  let modeValues := computeModeValues v collection allVariables
  let base : DTCGToken := { type := getDTCGTypeFromVariableType v.resolvedType }
  let withValue :=
    if 1 < collection.modes.length ∧ modeValues ≠ [] ∧
        1 < (modeValues.map Prod.snd).dedup.length then
      { base with modes := some modeValues }
    else
      { base with value :=
          match collection.modes.head? with
          | some firstMode =>
            match alookup v.valuesByMode firstMode.modeId with
            | some firstValue =>
              some (getVariableValueForMode v firstValue allVariables)
            | none =>
              collection.modes.findSome? (fun mode =>
                (alookup v.valuesByMode mode.modeId).map
                  (fun value => getVariableValueForMode v value allVariables))
          | none => none }
  if v.description ≠ "" then
    { withValue with description := some v.description }
  else withValue

/-- Serialise a token record back to its JSON object, with the key
order main.ts produces (`$type`, then `$modes` or `$value`, then
`$description`). -/
def tokenToJ (t : DTCGToken) : J :=
  J.obj ([("$type", J.str t.type)]
    ++ (match t.modes with
        | some mv => [("$modes", J.obj (mv.map (fun p => (p.1, J.str p.2))))]
        | none => [])
    ++ (match t.value with
        | some v => [("$value", J.str v)]
        | none => [])
    ++ (match t.description with
        | some d => [("$description", J.str d)]
        | none => []))

/-- The navigate/create walk of `convertCollectionToDTCG`
(lines 174-184), exactly as written: at an intermediate segment the
node is replaced by a fresh empty object when it is absent **or when it
is an object without `$type`** (i.e. an existing group is clobbered),
while an object with `$type` (a leaf token) is kept and descended
into.  At the last segment the token is assigned. -/
def insertPath : J → List String → J → J
  | t, [], _tok => t
  | J.str s, _ :: _, _tok => J.str s
  | J.obj fields, [lastSeg], tok => J.obj (aset fields lastSeg tok)
  | J.obj fields, seg :: seg2 :: rest, tok =>
    let child :=
      match alookup fields seg with
      | none => J.obj []
      | some (J.obj cf) => if jhasKey cf "$type" then J.obj cf else J.obj []
      | some (J.str s) => J.str s
    J.obj (aset fields seg (insertPath child (seg2 :: rest) tok))

/-- The tokens tree built by the variable loop of
`convertCollectionToDTCG` (lines 169-194): filter the variables of the
collection, split each name on `.` and insert the converted token. -/
def buildCollectionTokensRaw (collection : VariableCollection)
    (allVariables : List Variable) : J :=
  let collectionVariables :=
    allVariables.filter (fun v => v.variableCollectionId == collection.id)
  collectionVariables.foldl (fun tokens v =>
    insertPath tokens (splitChars (fun c => c == '.') v.name)
      (tokenToJ (convertVariableToDTCGToken v collection allVariables))) (J.obj [])

/-- Nesting depth of the object structure, used as fuel below. -/
def jdepthFields : List (String × J) → Nat
  | [] => 0
  | (_, J.str _) :: rest => jdepthFields rest
  | (_, J.obj f) :: rest => max (1 + jdepthFields f) (jdepthFields rest)

/-- `addTypeToColorGroups` of main.ts (lines 477-497), fuel-indexed:
a group (object without `$type`) whose direct children include a token
with `$type === 'color'` gets a `$type: 'color'` entry appended, then
its sub-groups are processed recursively. -/
def addTypeToColorGroupsAux : Nat → List (String × J) → List (String × J)
  | 0, fields => fields
  | fuel + 1, fields =>
    fields.map (fun kv =>
      match kv.2 with
      | J.obj vf =>
        if jhasKey vf "$type" then kv
        else
          let hasColorTokens := vf.any (fun p =>
            match p.2 with
            | J.obj tf =>
              match alookup tf "$type" with
              | some (J.str s) => s == "color"
              | _ => false
            | _ => false)
          let vf' := if hasColorTokens then aset vf "$type" (J.str "color") else vf
          (kv.1, J.obj (addTypeToColorGroupsAux fuel vf'))
      | _ => kv)

/-- `addTypeToColorGroups` applied to a whole tree. -/
def addTypeToColorGroups : J → J
  | J.obj fields => J.obj (addTypeToColorGroupsAux (1 + jdepthFields fields) fields)
  | other => other

/-- `convertCollectionToDTCG`'s `$tokens` result (the only part of the
per-collection document `exportCollections` uses). -/
def convertCollectionTokens (collection : VariableCollection)
    (allVariables : List Variable) : J :=
  addTypeToColorGroups (buildCollectionTokensRaw collection allVariables)

/-- Character-list prefix test (JS `String.prototype.startsWith`). -/
def charsHavePrefix : List Char → List Char → Bool
  | [], _ => true
  | _ :: _, [] => false
  | p :: ps, c :: cs => p == c && charsHavePrefix ps cs

/-- JS `s.startsWith(pre)`. -/
def strStartsWith (s pre : String) : Bool := charsHavePrefix pre.data s.data

/-- `hasColorValue` of main.ts (lines 377-382). -/
def hasColorValueB : Option J → Bool
  | some (J.str s) => strStartsWith s "#" || strStartsWith s "rgba"
  | _ => false

/-- The literal-color test of `groupAllColorsAtRoot` (lines 401-406):
an object with `$type === 'color'` whose `$value` is a hex/rgba string
or one of whose `$modes` values is. -/
def isLiteralColorToken : J → Bool
  | J.str _ => false
  | J.obj tf =>
    (match alookup tf "$type" with
     | some (J.str s) => s == "color"
     | _ => false)
    && (hasColorValueB (alookup tf "$value")
        || (match alookup tf "$modes" with
            | some (J.obj mf) => mf.any (fun p => hasColorValueB (some p.2))
            | _ => false))

/-- `{ ...tokenValue }` followed by `delete cleanToken.$type`. -/
def cleanToken : J → J
  | J.obj tf => J.obj (adel tf "$type")
  | other => other

/-- The simple navigate/create walk used inside `groupAllColorsAtRoot`
(lines 416-421 and 433-438): create an empty object only when the
segment is absent (or falsy), otherwise descend into whatever is
there. -/
def insertSimplePath : J → List String → J → J
  | t, [], _tok => t
  | J.str s, _ :: _, _tok => J.str s
  | J.obj fields, [lastSeg], tok => J.obj (aset fields lastSeg tok)
  | J.obj fields, seg :: seg2 :: rest, tok =>
    let child :=
      match alookup fields seg with
      | none => J.obj []
      | some (J.str s) => if s = "" then J.obj [] else J.str s
      | some c => c
    J.obj (aset fields seg (insertSimplePath child (seg2 :: rest) tok))

/-- `insertSimplePath` on a top-level field list. -/
def insertFields (fields : List (String × J)) (path : List String) (tok : J) :
    List (String × J) :=
  match insertSimplePath (J.obj fields) path tok with
  | J.obj l => l
  | _ => fields

/-- One iteration of the inner token loop of `groupAllColorsAtRoot`
(lines 400-445): a direct child that is a literal color token is
re-inserted (name split on `/`, `$type` removed) into the collection's
colors accumulator, any other child into its others accumulator. -/
def colorInnerStep (acc2 : List (String × J) × List (String × J))
    (te : String × J) : List (String × J) × List (String × J) :=
  if isLiteralColorToken te.2 then
    (insertFields acc2.1 (splitChars (fun c => c == '/') te.1)
      (cleanToken te.2), acc2.2)
  else
    (acc2.1, insertFields acc2.2 (splitChars (fun c => c == '/') te.1) te.2)

/-- One iteration of the outer collection loop of
`groupAllColorsAtRoot` (lines 394-459). -/
def colorOuterStep (acc : List (String × J) × List (String × J))
    (entry : String × J) : List (String × J) × List (String × J) :=
  match entry.2 with
  | J.obj cf =>
    if jhasKey cf "$type" then (acc.1, aset acc.2 entry.1 (J.obj cf))
    else
      let inner := cf.foldl colorInnerStep
        (([], []) : List (String × J) × List (String × J))
      let allColors :=
        if inner.1.isEmpty then acc.1 else aset acc.1 entry.1 (J.obj inner.1)
      let others :=
        if inner.2.isEmpty then acc.2 else aset acc.2 entry.1 (J.obj inner.2)
      (allColors, others)
  | other => (acc.1, aset acc.2 entry.1 other)

/-- `groupAllColorsAtRoot` of main.ts (lines 389-475): for each
top-level collection group, its **direct** children that are literal
color tokens are re-inserted (split on `/`, `$type` removed) into a
per-collection colors group, every other direct child is re-inserted
into a per-collection others group; if any colors were found the tree
is rebuilt as a root `colors` group (carrying `$type: 'color'`)
followed by the others, otherwise the tree is returned untouched. -/
def groupAllColorsAtRoot (tokens : List (String × J)) : List (String × J) :=
  let res := tokens.foldl colorOuterStep
    (([], []) : List (String × J) × List (String × J))
  if res.1.isEmpty then tokens
  else
    let colorsGroup :=
      res.1.foldl (fun acc kv => aset acc kv.1 kv.2) [("$type", J.str "color")]
    res.2.foldl (fun acc kv => aset acc kv.1 kv.2)
      [("colors", J.obj colorsGroup)]

/-- The collection-key slug of `exportCollections` (lines 71-73):
non-alphanumeric characters become `_`, then lower-case. -/
def sanitizeCollectionKey (s : String) : String :=
  String.mk (s.data.map (fun c => if c.isAlphanum then c.toLower else '_'))

/-- The `combinedModes` map of `exportCollections` (lines 83-93): one
empty object per distinct mode name over the selected collections, in
first-appearance order. -/
def combinedModesFor (sel : List VariableCollection) : List (String × J) :=
  sel.foldl (fun acc c =>
    c.modes.foldl (fun acc2 m =>
      if (alookup acc2 m.name).isSome then acc2
      else aset acc2 m.name (J.obj [])) acc) []

/-- The fallback pass of `exportCollections` (lines 99-107): when a
`light` mode name exists, every other mode entry gets
`$fallback: 'light'` (unless it already has a truthy one). -/
def addFallbacks (combinedModes : List (String × J)) : List (String × J) :=
  let hasLight := (alookup combinedModes "light").isSome
  combinedModes.map (fun kv =>
    if kv.1 = "light" then kv
    else
      match kv.2 with
      | J.obj f =>
        match alookup f "$fallback" with
        | some (J.str s) =>
          if s ≠ "" then kv
          else if hasLight then (kv.1, J.obj (aset f "$fallback" (J.str "light")))
          else kv
        | some (J.obj _) => kv
        | none =>
          if hasLight then (kv.1, J.obj (aset f "$fallback" (J.str "light")))
          else kv
      | _ => kv)

/-- The pure core of `exportCollections` (lines 38-136): the list of
`{filename, content}` payloads handed to the `DOWNLOAD_FILES` emit
call, with `content` kept as the structured JSON document. -/
def exportCollections (collections : List VariableCollection)
    (allVariables : List Variable) (selectedCollections : List String) :
    List (String × J) :=
  let selectedCollectionsData :=
    collections.filter (fun c => selectedCollections.contains c.id)
  let built := selectedCollectionsData.foldl (fun acc c =>
    (aset acc.1 (sanitizeCollectionKey c.name) (convertCollectionTokens c allVariables),
     acc.2 ++ [c.name])) (([], []) : List (String × J) × List String)
  let combinedTokens := groupAllColorsAtRoot built.1
  let combinedModes := combinedModesFor selectedCollectionsData
  let hasMultipleModes := 1 < combinedModes.length
  let doc := J.obj
    ([("$schema", J.str "https://specs.visual-tokens.com/format/1.0.0"),
      ("$name", J.str "Figma Variable Collections"),
      ("$description", J.str ("Combined design tokens from collections: " ++
        String.intercalate ", " built.2)),
      ("$tokens", J.obj combinedTokens)]
     ++ (if hasMultipleModes then [("$modes", J.obj (addFallbacks combinedModes))]
         else []))
  [("figma_variable_collections.json", doc)]

/-- Look a path up in a token tree. -/
def jgetPath : J → List String → Option J
  | t, [] => some t
  | J.obj fields, seg :: rest => (alookup fields seg).bind (fun c => jgetPath c rest)
  | J.str _, _ :: _ => none

/-- Modelled from the spec (section 4.2) for comparison only: trim and
lower-case a path segment, replace characters outside
`[A-Za-z0-9_-]` with `_`, collapse repeated underscores. -/
def trimChars (cs : List Char) : List Char :=
  ((cs.dropWhile (fun c => c.isWhitespace)).reverse.dropWhile
    (fun c => c.isWhitespace)).reverse

/-- Modelled from the spec: collapse runs of `_` (helper). -/
def collapseUnderscoresAux : List Char → Bool → List Char
  | [], _ => []
  | c :: rest, prevU =>
    if c = '_' then
      if prevU then collapseUnderscoresAux rest true
      else '_' :: collapseUnderscoresAux rest true
    else c :: collapseUnderscoresAux rest false

/-- Modelled from the spec (section 4.2): the normalized form of one
path segment. -/
def specNormalizeSegment (s : String) : String :=
  String.mk (collapseUnderscoresAux
    (((trimChars s.data).map Char.toLower).map
      (fun c => if c.isAlphanum || c = '_' || c = '-' then c else '_')) false)

/-- Modelled from the spec (sections 4.2 and 4.3): a variable name as a
normalized dot-path — split on `/` and `.`, normalize each segment,
join with `.`. -/
def specNormalizePath (name : String) : String :=
  String.intercalate "."
    ((splitChars (fun c => c == '/' || c == '.') name).map specNormalizeSegment)

/-- True when no top-level collection group has a direct child that the
code's own `isLiteralColorToken` test accepts — the condition under
which `groupAllColorsAtRoot` finds nothing to move. -/
def noDirectLiteralColor (tokens : List (String × J)) : Bool :=
  tokens.all (fun kv =>
    match kv.2 with
    | J.obj cf => jhasKey cf "$type" || cf.all (fun te => !(isLiteralColorToken te.2))
    | _ => true)

/-- The field list of the single document of an export payload. -/
def docFields (files : List (String × J)) : List (String × J) :=
  match files with
  | [(_, J.obj df)] => df
  | _ => []

/-- A one-mode collection holding the Float fixtures. -/
def c1Coll : VariableCollection := ⟨"coll1", "Spacing", [⟨"m1", "mode1"⟩]⟩

/-- A Float variable with an empty usage-scope list and raw value 8. -/
def c1VarNoScope : Variable :=
  ⟨"v1", "space.sm", "coll1", .FLOAT, [("m1", .float 8)], "", []⟩

/-- A Float variable with one usage scope and raw value 16. -/
def c1VarScoped : Variable :=
  ⟨"v2", "radius.lg", "coll1", .FLOAT, [("m1", .float 16)], "", ["CORNER_RADIUS"]⟩

/-- A two-mode (light/dark) collection. -/
def c2Coll : VariableCollection := ⟨"c2", "Web", [⟨"ml", "light"⟩, ⟨"md", "dark"⟩]⟩

/-- A string variable whose two modes hold different values. -/
def c2Var : Variable :=
  ⟨"v2c", "x", "c2", .STRING, [("ml", .str "A"), ("md", .str "B")], "", []⟩

/-- A one-mode collection holding the tree-builder fixtures. -/
def c3Coll : VariableCollection := ⟨"c3", "Colors", [⟨"m1", "mode1"⟩]⟩

/-- Variable `a.b` (inserted first). -/
def c3VarB : Variable := ⟨"v31", "a.b", "c3", .STRING, [("m1", .str "1")], "", []⟩

/-- Variable `a.c` (inserted second, sharing the group `a`). -/
def c3VarC : Variable := ⟨"v32", "a.c", "c3", .STRING, [("m1", .str "2")], "", []⟩

/-- Variable `a` (a leaf at a path that later becomes intermediate). -/
def c3VarA : Variable := ⟨"v33", "a", "c3", .STRING, [("m1", .str "3")], "", []⟩

/-- Variable `a.b` inserted after the leaf `a`. -/
def c3VarAB : Variable := ⟨"v34", "a.b", "c3", .STRING, [("m1", .str "4")], "", []⟩

/-- An alias target whose name has upper case, a slash and a space. -/
def c4Target : Variable := ⟨"VariableID:2:3", "Color/Bg Surface", "cX", .COLOR, [], "", []⟩

/-- A variable holding an alias to `c4Target`. -/
def c4Var : Variable :=
  ⟨"v9", "alias.user", "cX", .COLOR, [("m1", .alias "VariableID:2:3")], "", []⟩

/-- A one-mode collection for the name-splitting fixture. -/
def c5Coll : VariableCollection := ⟨"c5", "Misc", [⟨"m1", "mode1"⟩]⟩

/-- A variable whose name contains a slash and an upper-case letter. -/
def c5Var : Variable := ⟨"v5", "A/b", "c5", .STRING, [("m1", .str "hi")], "", []⟩

/-- The `light` mode of the fallback fixture. -/
def c6Light : VarMode := ⟨"ml", "light"⟩

/-- The `dark` mode of the fallback fixture. -/
def c6Dark : VarMode := ⟨"md", "dark"⟩

/-- A mode named `blue`, neither `light` nor `dark`. -/
def c6Blue : VarMode := ⟨"mb", "blue"⟩

/-- A three-mode collection (light, dark, blue). -/
def c6Coll : VariableCollection := ⟨"c6", "Theme", [c6Light, c6Dark, c6Blue]⟩

/-- A variable valued in light and dark but not in blue. -/
def c6Var : Variable :=
  ⟨"v6", "x", "c6", .STRING, [("ml", .str "A"), ("md", .str "B")], "", []⟩

/-- A two-mode collection for the collapsing fixture. -/
def c7Coll : VariableCollection := ⟨"c7", "T", [⟨"m1", "one"⟩, ⟨"m2", "two"⟩]⟩

/-- A variable whose two modes hold distinct values. -/
def c7VarDiff : Variable :=
  ⟨"v7a", "t", "c7", .STRING, [("m1", .str "A"), ("m2", .str "B")], "", []⟩

/-- A variable whose two modes hold the same value. -/
def c7VarSame : Variable :=
  ⟨"v7b", "t", "c7", .STRING, [("m1", .str "S"), ("m2", .str "S")], "", []⟩

/-- The document `exportCollections` emits for an empty selection. -/
def c8EmptyDoc : J :=
  J.obj [("$schema", J.str "https://specs.visual-tokens.com/format/1.0.0"),
    ("$name", J.str "Figma Variable Collections"),
    ("$description", J.str "Combined design tokens from collections: "),
    ("$tokens", J.obj [])]

/-- A Color-kind variable for the color-conversion fixtures. -/
def c9Var : Variable := ⟨"v9c", "c", "cX", .COLOR, [], "", []⟩

/-- A color token with a literal hex `$value`. -/
def c10Token : J := J.obj [("$type", J.str "color"), ("$value", J.str "#ff0000")]

/-- A combined tree whose only literal color token sits nested one
group below a collection's top-level group. -/
def c10Input : List (String × J) :=
  [("c1", J.obj [("brand", J.obj [("$type", J.str "color"), ("red", c10Token)])])]

/-- A color token whose `$value` is only an alias reference. -/
def c10Alias : J :=
  J.obj [("$type", J.str "color"), ("$value", J.str "\x7bcolor.other\x7d")]

theorem strMk_data (s : String) : String.mk s.data = s := by
  cases s
  rfl

theorem alookup_aset_ne {α : Type} (l : List (String × α)) (k k' : String) (v : α)
    (h : k' ≠ k) : alookup (aset l k' v) k = alookup l k := by
  induction l with
  | nil => simp [aset, alookup, h]
  | cons hd tl ih =>
    obtain ⟨hk, hv⟩ := hd
    by_cases hh : hk = k'
    · subst hh
      simp [aset, alookup, h]
    · by_cases hk2 : hk = k
      · subst hk2
        simp [aset, alookup, hh]
      · simp [aset, alookup, hh, hk2, ih]

theorem mem_aset {α : Type} {l : List (String × α)} {k : String} {v : α}
    {x : String × α} (h : x ∈ aset l k v) : x = (k, v) ∨ x ∈ l := by
  induction l with
  | nil => simp [aset] at h; simp [h]
  | cons hd tl ih =>
    obtain ⟨hk, hv⟩ := hd
    by_cases hh : hk = k
    · subst hh
      simp [aset] at h
      rcases h with h | h
      · left; simp [h]
      · right; simp [h]
    · simp [aset, hh] at h
      rcases h with h | h
      · right; simp [h]
      · rcases ih h with h2 | h2
        · left; exact h2
        · right; simp [h2]

theorem dedup_length_le_one_of_all_eq {l : List String} {c : String}
    (h : ∀ x ∈ l, x = c) : l.dedup.length ≤ 1 := by
  induction l with
  | nil => simp
  | cons a tl ih =>
    have ha : a = c := h a (by simp)
    have htl : ∀ x ∈ tl, x = c := fun x hx => h x (by simp [hx])
    by_cases hmem : a ∈ tl
    · rw [List.dedup_cons_of_mem hmem]
      exact ih htl
    · rw [List.dedup_cons_of_not_mem hmem]
      have htlnil : tl = [] := by
        cases tl with
        | nil => rfl
        | cons b tb =>
          have hb : b = c := htl b (by simp)
          exact absurd (by rw [ha, ← hb]; exact List.mem_cons_self b tb) hmem
      subst htlnil
      simp

theorem exists_pair_ne_of_one_lt_dedup {l : List String}
    (h : 1 < l.dedup.length) : ∃ a ∈ l, ∃ b ∈ l, a ≠ b := by
  rcases hd : l.dedup with _ | ⟨a, _ | ⟨b, rest⟩⟩
  · rw [hd] at h; simp at h
  · rw [hd] at h; simp at h
  · have hnd := l.nodup_dedup
    rw [hd] at hnd
    have hab : a ≠ b := by
      intro e
      subst e
      simp at hnd
    refine ⟨a, ?_, b, ?_, hab⟩
    · exact List.mem_dedup.1 (hd ▸ by simp)
    · exact List.mem_dedup.1 (hd ▸ by simp)

theorem splitCharsAux_ne_nil (p : Char → Bool) (cs acc : List Char) :
    splitCharsAux p cs acc ≠ [] := by
  induction cs generalizing acc with
  | nil => simp [splitCharsAux]
  | cons c rest ih =>
    by_cases hp : p c <;> simp [splitCharsAux, hp, ih]

theorem splitChars_ne_nil (p : Char → Bool) (s : String) : splitChars p s ≠ [] :=
  splitCharsAux_ne_nil p s.data []

theorem splitCharsAux_no_sep (p : Char → Bool) (cs : List Char)
    (h : ∀ c ∈ cs, p c = false) (acc : List Char) :
    splitCharsAux p cs acc = [String.mk (acc.reverse ++ cs)] := by
  induction cs generalizing acc with
  | nil => simp [splitCharsAux]
  | cons c rest ih =>
    have hc : p c = false := h c (by simp)
    rw [splitCharsAux]
    simp only [hc, Bool.false_eq_true, if_false]
    rw [ih (fun d hd => h d (by simp [hd])) (c :: acc)]
    simp

theorem splitChars_eq_single (p : Char → Bool) (s : String)
    (h : ∀ c ∈ s.data, p c = false) : splitChars p s = [s] := by
  rw [splitChars, splitCharsAux_no_sep p s.data h []]
  simp [strMk_data]

theorem jgetPath_insertPath_fresh (segs : List String) (tok : J) (h : segs ≠ []) :
    jgetPath (insertPath (J.obj []) segs tok) segs = some tok := by
  induction segs with
  | nil => exact absurd rfl h
  | cons s rest ih =>
    cases rest with
    | nil => simp [insertPath, aset, jgetPath, alookup]
    | cons s2 r2 =>
      simp only [insertPath, alookup]
      simp [aset, jgetPath, alookup, ih]

theorem decDigit_not_px (n : Nat) : decDigit n ≠ 'p' ∧ decDigit n ≠ 'x' := by
  constructor <;> (unfold decDigit; split <;> decide)

theorem natToDecAux_not_px {fuel n : Nat} {c : Char} (h : c ∈ natToDecAux fuel n) :
    c ≠ 'p' ∧ c ≠ 'x' := by
  induction fuel generalizing n with
  | zero => simp [natToDecAux] at h
  | succ f ih =>
    rw [natToDecAux] at h
    by_cases hn : n < 10
    · simp [hn] at h
      subst h
      exact decDigit_not_px n
    · simp [hn] at h
      rcases h with h | h
      · exact ih h
      · subst h
        exact decDigit_not_px (n % 10)

theorem mem_dropTrailingZeros {cs : List Char} {c : Char}
    (h : c ∈ dropTrailingZeros cs) : c ∈ cs := by
  rw [dropTrailingZeros] at h
  rw [List.mem_reverse] at h
  have := (List.dropWhile_sublist (l := cs.reverse)
    (p := fun c => c = '0')).mem h
  rwa [List.mem_reverse] at this

theorem numToString_chars {q : ℚ} {c : Char} (h : c ∈ (numToString q).data) :
    c ≠ 'p' ∧ c ≠ 'x' := by
  have h' : c ∈ numToStringChars q := by simpa [numToString] using h
  have hsign : ∀ {P : Prop} [Decidable P],
      c ∈ (if P then ['-'] else []) → c ≠ 'p' ∧ c ≠ 'x' := by
    intro P hP hc
    split at hc
    · simp at hc
      subst hc
      exact ⟨by decide, by decide⟩
    · simp at hc
  rw [numToStringChars] at h'
  split at h'
  · rcases List.mem_append.1 h' with hs | hd
    · exact hsign hs
    · exact natToDecAux_not_px hd
  · split at h'
    · rcases List.mem_append.1 h' with hs | hd
      · exact hsign hs
      · exact natToDecAux_not_px hd
    · rcases List.mem_append.1 h' with hsd | hf
      · rcases List.mem_append.1 hsd with hs | hd
        · exact hsign hs
        · exact natToDecAux_not_px hd
      · rcases List.mem_cons.1 hf with hdot | hfr
        · subst hdot
          exact ⟨by decide, by decide⟩
        · rcases List.mem_append.1 (mem_dropTrailingZeros hfr) with h2 | h2
          · have : c = '0' := List.eq_of_mem_replicate h2
            subst this
            exact ⟨by decide, by decide⟩
          · exact natToDecAux_not_px h2

/-- Claim C1: the claim says a Float variable with zero usage scopes is
coerced to type `number` with a bare numeric value, and one with a
scope to `dimension` with a `px`-suffixed string.  Both parts fail on
the code: a zero-scope Float variable still gets `$type` `dimension`,
and a scoped Float variable's value is the plain decimal string with no
`px` suffix. -/
theorem C1_counterexample :
    (convertVariableToDTCGToken c1VarNoScope c1Coll [c1VarNoScope]).type =
      "dimension" ∧
    "dimension" ≠ "number" ∧
    c1VarNoScope.scopes = [] ∧
    (convertVariableToDTCGToken c1VarScoped c1Coll [c1VarScoped]).value =
      some "16" ∧
    c1VarScoped.scopes ≠ [] ∧
    some "16" ≠ some ("16" ++ "px") := by
  exact ⟨rfl, by decide, rfl, rfl, by decide, by decide⟩

/-- Claim C1 (amended): for every Float-kind variable and every defined
numeric raw value `n`, the conversion yields `$type` `dimension`
regardless of the usage-scope list, and the value is the decimal string
of `n` — a string containing neither `p` nor `x`, so never suffixed
with `px`, for any scope list. -/
theorem C1_amended (v : Variable) (n : ℚ) (vars : List Variable)
    (h : v.resolvedType = .FLOAT) :
    getDTCGTypeFromVariableType v.resolvedType = "dimension" ∧
    getVariableValueForMode v (.float n) vars = numToString n ∧
    ∀ c ∈ (getVariableValueForMode v (.float n) vars).data, c ≠ 'p' ∧ c ≠ 'x' := by
  refine ⟨by rw [h]; rfl, ?_, ?_⟩
  · rfl
  · intro c hc
    exact numToString_chars hc

/-- Witness for C1 (amended) at the zero-scope Float fixture with raw
value 8. -/
theorem C1_witness :
    getDTCGTypeFromVariableType c1VarNoScope.resolvedType = "dimension" ∧
    getVariableValueForMode c1VarNoScope (.float 8) [] = numToString 8 ∧
    ∀ c ∈ (getVariableValueForMode c1VarNoScope (.float 8) []).data,
      c ≠ 'p' ∧ c ≠ 'x' :=
  C1_amended c1VarNoScope 8 [] rfl

/-- Claim C3 is what the spec intends, but the code's condition is
inverted: while walking the intermediate segments, an existing *group*
is replaced by a fresh empty object (discarding every token already
inserted beneath it), and an existing *leaf* is kept and descended
into.  Inserting `a.b` then `a.c` therefore discards the `a.b` leaf
even though the two full paths differ, and inserting `a` then `a.b`
nests `b` inside the leaf token `a` instead of replacing the leaf with
a group. -/
theorem C3_code_bug :
    jgetPath (buildCollectionTokensRaw c3Coll [c3VarB]) ["a", "b"] =
      some (tokenToJ (convertVariableToDTCGToken c3VarB c3Coll [c3VarB])) ∧
    jgetPath (buildCollectionTokensRaw c3Coll [c3VarB, c3VarC]) ["a", "b"] =
      none ∧
    jgetPath (buildCollectionTokensRaw c3Coll [c3VarB, c3VarC]) ["a", "c"] =
      some (tokenToJ (convertVariableToDTCGToken c3VarC c3Coll [c3VarB, c3VarC])) ∧
    jgetPath (buildCollectionTokensRaw c3Coll [c3VarA, c3VarAB]) ["a", "b"] =
      some (tokenToJ (convertVariableToDTCGToken c3VarAB c3Coll [c3VarA, c3VarAB])) ∧
    jgetPath (buildCollectionTokensRaw c3Coll [c3VarA, c3VarAB]) ["a", "$type"] =
      some (J.str "string") := by
  exact ⟨rfl, rfl, rfl, rfl, rfl⟩

/-- Claim C4: the claim says a resolvable alias is emitted as the
target's *normalized* dot-path (lower-cased, underscore-sanitized).
The code only replaces slashes with dots and keeps the name verbatim:
the target named `Color/Bg Surface` is emitted as
`{Color.Bg Surface}`, not the normalized `{color.bg_surface}`. -/
theorem C4_counterexample :
    getVariableValueForMode c4Var (.alias "VariableID:2:3") [c4Target] =
      "\x7bColor.Bg Surface\x7d" ∧
    getVariableValueForMode c4Var (.alias "VariableID:2:3") [c4Target] ≠
      "\x7b" ++ specNormalizePath c4Target.name ++ "\x7d" := by
  exact ⟨rfl, by decide⟩

/-- Claim C4 (amended): for a raw alias value, when the target id is
found among the supplied variables the emitted value is the target's
name with every `/` replaced by `.`, wrapped in braces, with no
lower-casing or character sanitization; when the target is absent the
raw alias id is wrapped in braces, and the export does not fail. -/
theorem C4_amended (v : Variable) (aid : String) (vars : List Variable) :
    (∀ rv, vars.find? (fun w => w.id == aid) = some rv →
      getVariableValueForMode v (.alias aid) vars =
        "\x7b" ++ replaceSlashWithDot rv.name ++ "\x7d") ∧
    (vars.find? (fun w => w.id == aid) = none →
      getVariableValueForMode v (.alias aid) vars = "\x7b" ++ aid ++ "\x7d") := by
  constructor
  · intro rv hfind
    simp [getVariableValueForMode, hfind]
  · intro hfind
    simp [getVariableValueForMode, hfind]

/-- Witness for C4 (amended): the found and the dangling case at
concrete inputs. -/
theorem C4_witness :
    getVariableValueForMode c4Var (.alias "VariableID:2:3") [c4Target] =
      "\x7b" ++ replaceSlashWithDot c4Target.name ++ "\x7d" ∧
    getVariableValueForMode c4Var (.alias "missing") [c4Target] =
      "\x7b" ++ "missing" ++ "\x7d" :=
  ⟨(C4_amended c4Var "VariableID:2:3" [c4Target]).1 c4Target rfl,
   (C4_amended c4Var "missing" [c4Target]).2 rfl⟩

/-- Claim C5: the claim says names are split on both `/` and `.` and
every segment is trimmed, lower-cased and sanitized.  The code splits
on `.` only and uses the segments verbatim: the variable named `A/b`
produces a single top-level leaf keyed `A/b`, not a group `a`
containing `b`. -/
theorem C5_counterexample :
    jgetPath (buildCollectionTokensRaw c5Coll [c5Var]) ["A/b"] =
      some (tokenToJ (convertVariableToDTCGToken c5Var c5Coll [c5Var])) ∧
    jgetPath (buildCollectionTokensRaw c5Coll [c5Var]) ["a", "b"] = none ∧
    splitChars (fun c => c == '.') c5Var.name ≠
      (splitChars (fun c => c == '/' || c == '.') c5Var.name).map
        specNormalizeSegment := by
  exact ⟨rfl, rfl, by decide⟩

/-- Claim C5 (amended): the tree builder splits a variable's name on
`.` only (no `/`), performs no trimming, lower-casing or character
replacement on the segments, and inserts the leaf at exactly that
verbatim path. -/
theorem C5_amended (coll : VariableCollection) (v : Variable)
    (h : v.variableCollectionId = coll.id) :
    jgetPath (buildCollectionTokensRaw coll [v])
      (splitChars (fun c => c == '.') v.name) =
      some (tokenToJ (convertVariableToDTCGToken v coll [v])) := by
  rw [buildCollectionTokensRaw]
  simp only [List.filter, h, beq_self_eq_true, List.foldl]
  exact jgetPath_insertPath_fresh _ _ (splitChars_ne_nil _ _)

/-- Witness for C5 (amended) at the slash-containing fixture. -/
theorem C5_witness :
    jgetPath (buildCollectionTokensRaw c5Coll [c5Var])
      (splitChars (fun c => c == '.') c5Var.name) =
      some (tokenToJ (convertVariableToDTCGToken c5Var c5Coll [c5Var])) :=
  C5_amended c5Coll c5Var rfl

theorem foldl_modeValueStep_none (v : Variable) (vars : List Variable)
    (allModes : List VarMode) (key : String) :
    ∀ (ms : List VarMode) (acc : List (String × String)),
      alookup acc key = none →
      (∀ m ∈ ms, m.name = key →
        alookup v.valuesByMode m.modeId = none ∧
        getFallbackMode m.name allModes = none) →
      alookup (ms.foldl (modeValueStep v vars allModes) acc) key = none := by
  intro ms
  induction ms with
  | nil =>
    intro acc hacc _
    simpa using hacc
  | cons m ms' ih =>
    intro acc hacc hms
    rw [List.foldl_cons]
    apply ih
    · rw [modeValueStep]
      by_cases hname : m.name = key
      · obtain ⟨hdir, hfb⟩ := hms m (by simp) hname
        rw [hdir, hfb]
        exact hacc
      · cases hd : alookup v.valuesByMode m.modeId with
        | some val =>
          dsimp only
          rw [alookup_aset_ne _ _ _ _ hname]
          exact hacc
        | none =>
          dsimp only
          cases hfb : getFallbackMode m.name allModes with
          | none => exact hacc
          | some fm =>
            dsimp only
            cases hfv : alookup v.valuesByMode fm.modeId with
            | some fval =>
              dsimp only
              rw [alookup_aset_ne _ _ _ _ hname]
              exact hacc
            | none => exact hacc
    · intro m' hm' hname'
      exact hms m' (by simp [hm']) hname'

/-- Claim C6: the claim says a mode named `light` serves as fallback
for *every* other mode.  In the code only a mode named `dark` falls
back to `light`: in a collection with modes light/dark/blue where the
variable has values for light and dark only, the mode `blue` gets no
entry at all even though a `light` mode exists. -/
theorem C6_counterexample :
    (convertVariableToDTCGToken c6Var c6Coll [c6Var]).modes =
      some [("light", "A"), ("dark", "B")] ∧
    alookup (computeModeValues c6Var c6Coll [c6Var]) "blue" = none ∧
    getFallbackMode "blue" c6Coll.modes = none ∧
    (c6Coll.modes.find? (fun mo => mo.name == "light")).isSome = true := by
  exact ⟨rfl, rfl, rfl, rfl⟩

/-- Claim C6 (amended): only a mode literally named `dark` receives a
fallback, namely the first mode named `light` when one exists; every
other mode is exact-match-or-nothing (its per-mode entry is absent when
it has no direct value), and when no `light` mode exists even `dark`
gets no fallback. -/
theorem C6_amended (v : Variable) (coll : VariableCollection) (vars : List Variable)
    (hnd : (coll.modes.map VarMode.name).Nodup) :
    (∀ mode ∈ coll.modes, mode.name ≠ "dark" →
      alookup v.valuesByMode mode.modeId = none →
      alookup (computeModeValues v coll vars) mode.name = none) ∧
    (∀ (m : String) (ms : List VarMode), m ≠ "dark" →
      getFallbackMode m ms = none) ∧
    (∀ ms : List VarMode, getFallbackMode "dark" ms =
      ms.find? (fun mo => mo.name == "light")) := by
  refine ⟨?_, ?_, ?_⟩
  · intro mode hmode hname hval
    rw [computeModeValues]
    apply foldl_modeValueStep_none
    · rfl
    · intro m hm hname'
      have hmeq : m = mode :=
        List.inj_on_of_nodup_map hnd hm hmode (by rw [hname'])
      subst hmeq
      refine ⟨hval, ?_⟩
      simp [getFallbackMode, hname']
      intro hcontra
      exact absurd hcontra hname
  · intro m ms hm
    simp [getFallbackMode, hm]
  · intro ms
    simp [getFallbackMode]

/-- Witness for C6 (amended): mode `blue` gets no entry despite a
`light` mode existing, `blue` has no fallback, and `dark` falls back to
the first `light` mode. -/
theorem C6_witness :
    alookup (computeModeValues c6Var c6Coll [c6Var]) "blue" = none ∧
    getFallbackMode "blue" [c6Light] = none ∧
    getFallbackMode "dark" c6Coll.modes =
      c6Coll.modes.find? (fun mo => mo.name == "light") :=
  ⟨(C6_amended c6Var c6Coll [c6Var] (by decide)).1 c6Blue (by decide)
      (by decide) rfl,
   (C6_amended c6Var c6Coll [c6Var] (by decide)).2.1 "blue" [c6Light] (by decide),
   (C6_amended c6Var c6Coll [c6Var] (by decide)).2.2 c6Coll.modes⟩

theorem computeModeValues_all_eq (v : Variable) (coll : VariableCollection)
    (vars : List Variable) (c : String)
    (h : ∀ m ∈ coll.modes, ∀ val, alookup v.valuesByMode m.modeId = some val →
      getVariableValueForMode v val vars = c) :
    ∀ p ∈ computeModeValues v coll vars, p.2 = c := by
  rw [computeModeValues]
  suffices hgen : ∀ (ms : List VarMode), (∀ m ∈ ms, m ∈ coll.modes) →
      ∀ acc : List (String × String), (∀ p ∈ acc, p.2 = c) →
      ∀ p ∈ ms.foldl (modeValueStep v vars coll.modes) acc, p.2 = c by
    exact hgen coll.modes (fun m hm => hm) [] (by simp)
  intro ms
  induction ms with
  | nil =>
    intro _ acc hacc
    simpa using hacc
  | cons m ms' ih =>
    intro hsub acc hacc
    rw [List.foldl_cons]
    apply ih (fun x hx => hsub x (by simp [hx]))
    rw [modeValueStep]
    cases hd : alookup v.valuesByMode m.modeId with
    | some val =>
      dsimp only
      intro p hp
      rcases mem_aset hp with heq | hp2
      · rw [heq]
        exact h m (hsub m (by simp)) val hd
      · exact hacc p hp2
    | none =>
      dsimp only
      cases hfb : getFallbackMode m.name coll.modes with
      | none => exact hacc
      | some fm =>
        dsimp only
        cases hfv : alookup v.valuesByMode fm.modeId with
        | none => exact hacc
        | some fval =>
          dsimp only
          intro p hp
          rcases mem_aset hp with heq | hp2
          · rw [heq]
            have hfm : fm ∈ coll.modes := by
              rw [getFallbackMode] at hfb
              split at hfb
              · exact List.mem_of_find?_eq_some hfb
              · cases hfb
            exact h fm hfm fval hfv
          · exact hacc p hp2

theorem convertToken_modes_eq (v : Variable) (coll : VariableCollection)
    (vars : List Variable) :
    (convertVariableToDTCGToken v coll vars).modes =
      if 1 < coll.modes.length ∧ computeModeValues v coll vars ≠ [] ∧
          1 < ((computeModeValues v coll vars).map Prod.snd).dedup.length
      then some (computeModeValues v coll vars) else none := by
  by_cases hcond : 1 < coll.modes.length ∧ computeModeValues v coll vars ≠ [] ∧
      1 < ((computeModeValues v coll vars).map Prod.snd).dedup.length <;>
  by_cases hdesc : v.description ≠ "" <;>
  simp [convertVariableToDTCGToken, hcond, hdesc]

theorem convertToken_value_eq (v : Variable) (coll : VariableCollection)
    (vars : List Variable) :
    (convertVariableToDTCGToken v coll vars).value =
      if 1 < coll.modes.length ∧ computeModeValues v coll vars ≠ [] ∧
          1 < ((computeModeValues v coll vars).map Prod.snd).dedup.length
      then none
      else
        match coll.modes.head? with
        | some firstMode =>
          match alookup v.valuesByMode firstMode.modeId with
          | some firstValue =>
            some (getVariableValueForMode v firstValue vars)
          | none =>
            coll.modes.findSome? (fun mode =>
              (alookup v.valuesByMode mode.modeId).map
                (fun value => getVariableValueForMode v value vars))
        | none => none := by
  by_cases hcond : 1 < coll.modes.length ∧ computeModeValues v coll vars ≠ [] ∧
      1 < ((computeModeValues v coll vars).map Prod.snd).dedup.length <;>
  by_cases hdesc : v.description ≠ "" <;>
  simp [convertVariableToDTCGToken, hcond, hdesc]

/-- Claim C7 (confirmed): the built leaf token carries a `$modes`
structure only when at least two modes produced distinct converted
values, and when every defined mode value converts to one and the same
string (and at least one mode has a value), the leaf carries a single
`$value` with that string and no `$modes` structure — even in a
multi-mode collection. -/
theorem C7_confirmed (v : Variable) (coll : VariableCollection)
    (vars : List Variable) :
    (∀ mv, (convertVariableToDTCGToken v coll vars).modes = some mv →
      ∃ p ∈ computeModeValues v coll vars,
        ∃ q ∈ computeModeValues v coll vars, p.2 ≠ q.2) ∧
    (∀ c : String,
      (∀ m ∈ coll.modes, ∀ val, alookup v.valuesByMode m.modeId = some val →
        getVariableValueForMode v val vars = c) →
      (∃ m ∈ coll.modes, (alookup v.valuesByMode m.modeId).isSome = true) →
      (convertVariableToDTCGToken v coll vars).modes = none ∧
      (convertVariableToDTCGToken v coll vars).value = some c) := by
  constructor
  · intro mv hmv
    rw [convertToken_modes_eq] at hmv
    split at hmv
    · next hcond =>
      obtain ⟨-, -, h3⟩ := hcond
      obtain ⟨a, ha, b, hb, hab⟩ := exists_pair_ne_of_one_lt_dedup h3
      obtain ⟨p, hp, hpa⟩ := List.mem_map.1 ha
      obtain ⟨q2, hq, hqb⟩ := List.mem_map.1 hb
      exact ⟨p, hp, q2, hq, by rw [hpa, hqb]; exact hab⟩
    · cases hmv
  · intro c hall hex
    have hvals : ∀ p ∈ computeModeValues v coll vars, p.2 = c :=
      computeModeValues_all_eq v coll vars c hall
    have hded : ¬ 1 < ((computeModeValues v coll vars).map Prod.snd).dedup.length := by
      have hle := dedup_length_le_one_of_all_eq
        (l := (computeModeValues v coll vars).map Prod.snd) (c := c) ?_
      · omega
      · intro x hx
        obtain ⟨p, hp, hpx⟩ := List.mem_map.1 hx
        rw [← hpx]
        exact hvals p hp
    have hcondF : ¬ (1 < coll.modes.length ∧ computeModeValues v coll vars ≠ [] ∧
        1 < ((computeModeValues v coll vars).map Prod.snd).dedup.length) :=
      fun hc => hded hc.2.2
    constructor
    · rw [convertToken_modes_eq, if_neg hcondF]
    · rw [convertToken_value_eq, if_neg hcondF]
      obtain ⟨m, hm, hms⟩ := hex
      rcases hmod : coll.modes with _ | ⟨m0, rest⟩
      · rw [hmod] at hm
        simp at hm
      · rw [hmod] at hm hall
        simp only [List.head?]
        cases hd0 : alookup v.valuesByMode m0.modeId with
        | some fv =>
          dsimp only
          exact congrArg some (hall m0 (by simp) fv hd0)
        | none =>
          dsimp only
          have hne : (m0 :: rest).findSome? (fun mode =>
              (alookup v.valuesByMode mode.modeId).map
                (fun value => getVariableValueForMode v value vars)) ≠ none := by
            intro hnone0
            rw [List.findSome?_eq_none_iff] at hnone0
            have := hnone0 m hm
            rw [Option.map_eq_none'] at this
            rw [this] at hms
            cases hms
          cases hfs : (m0 :: rest).findSome? (fun mode =>
              (alookup v.valuesByMode mode.modeId).map
                (fun value => getVariableValueForMode v value vars)) with
          | none => exact absurd hfs hne
          | some y =>
            obtain ⟨m', hm', hfm'⟩ := List.exists_of_findSome?_eq_some hfs
            rw [Option.map_eq_some'] at hfm'
            obtain ⟨val', hval', hy⟩ := hfm'
            rw [← hy, hall m' hm' val' hval']

/-- Witness for C7: a two-mode variable with distinct values does carry
two distinct per-mode entries, and a two-mode variable with one shared
value collapses to a single `$value` with no `$modes`. -/
theorem C7_witness :
    (∃ p ∈ computeModeValues c7VarDiff c7Coll [],
      ∃ q ∈ computeModeValues c7VarDiff c7Coll [], p.2 ≠ q.2) ∧
    ((convertVariableToDTCGToken c7VarSame c7Coll []).modes = none ∧
     (convertVariableToDTCGToken c7VarSame c7Coll []).value = some "S") := by
  constructor
  · exact (C7_confirmed c7VarDiff c7Coll []).1
      (computeModeValues c7VarDiff c7Coll []) rfl
  · refine (C7_confirmed c7VarSame c7Coll []).2 "S" ?_ ?_
    · intro m hm val hval
      simp [c7Coll] at hm
      rcases hm with rfl | rfl <;>
      · simp [c7VarSame, alookup] at hval
        subst hval
        rfl
    · exact ⟨⟨"m1", "one"⟩, by decide, by decide⟩

/-- Claim C8: the claim says an empty selection is a no-op with no
output and no collaborator call.  The code unconditionally emits one
file: with zero collections selected it still sends a single
`figma_variable_collections.json` whose `$tokens` is empty. -/
theorem C8_counterexample :
    exportCollections [] [] [] =
      [("figma_variable_collections.json", c8EmptyDoc)] ∧
    (exportCollections [] [] []).length ≠ 0 := by
  exact ⟨rfl, by decide⟩

/-- Claim C8 (amended): when the set of selected collection ids is
empty, the export still emits exactly one payload, the file
`figma_variable_collections.json` containing the fixed document with an
empty `$tokens` object and no `$modes`, regardless of what collections
and variables exist. -/
theorem C8_amended (collections : List VariableCollection)
    (allVariables : List Variable) :
    exportCollections collections allVariables [] =
      [("figma_variable_collections.json", c8EmptyDoc)] := by
  have hfilter : collections.filter
      (fun c => ([] : List String).contains c.id) = [] := by
    induction collections with
    | nil => rfl
    | cons c cs ih =>
      rw [List.filter_cons]
      simp [ih]
  simp only [exportCollections, hfilter]
  rfl

/-- Claim C2: the claim says each emitted document has shape
`{$schema, $metadata: {name, description}, tokens}` with the DTCG
schema URL and no `$modes` anywhere.  The code emits
`{$schema, $name, $description, $tokens}` with the fixed URL
`https://specs.visual-tokens.com/format/1.0.0`, no `$metadata` key, and
adds a top-level `$modes` key whenever the selected collections define
more than one distinct mode name. -/
theorem C2_counterexample :
    alookup (docFields (exportCollections [c2Coll] [c2Var] ["c2"])) "$schema" =
      some (J.str "https://specs.visual-tokens.com/format/1.0.0") ∧
    "https://specs.visual-tokens.com/format/1.0.0" ≠
      "https://design-tokens.org/dtcg/schema.json" ∧
    (alookup (docFields (exportCollections [c2Coll] [c2Var] ["c2"]))
      "$modes").isSome = true ∧
    alookup (docFields (exportCollections [c2Coll] [c2Var] ["c2"]))
      "$metadata" = none := by
  exact ⟨rfl, by decide, rfl, rfl⟩

/-- Claim C2 (amended): every export emits exactly one document whose
top-level keys are `$schema`, `$name`, `$description`, `$tokens` in
that order — with a trailing `$modes` key exactly when the selected
collections define more than one distinct mode name — whose `$schema`
is the fixed URL `https://specs.visual-tokens.com/format/1.0.0`, and
which has no `$metadata` key. -/
theorem C2_amended (collections : List VariableCollection)
    (allVariables : List Variable) (selected : List String) :
    (exportCollections collections allVariables selected).map Prod.fst =
      ["figma_variable_collections.json"] ∧
    alookup (docFields (exportCollections collections allVariables selected))
      "$schema" = some (J.str "https://specs.visual-tokens.com/format/1.0.0") ∧
    alookup (docFields (exportCollections collections allVariables selected))
      "$metadata" = none ∧
    (((docFields (exportCollections collections allVariables selected)).map
          Prod.fst = ["$schema", "$name", "$description", "$tokens"] ∧
        ¬ 1 < (combinedModesFor (collections.filter
          (fun c => selected.contains c.id))).length) ∨
     ((docFields (exportCollections collections allVariables selected)).map
          Prod.fst = ["$schema", "$name", "$description", "$tokens", "$modes"] ∧
        1 < (combinedModesFor (collections.filter
          (fun c => selected.contains c.id))).length)) := by
  by_cases hmm : 1 < (combinedModesFor (collections.filter
      (fun c => selected.contains c.id))).length
  · refine ⟨?_, ?_, ?_, Or.inr ⟨?_, hmm⟩⟩ <;>
    · simp only [exportCollections, if_pos hmm]
      rfl
  · refine ⟨?_, ?_, ?_, Or.inl ⟨?_, hmm⟩⟩ <;>
    · simp only [exportCollections, if_neg hmm]
      rfl

theorem jsRound255_eq_floor (q : ℚ) : jsRound255 q = ⌊q * 255 + 1 / 2⌋ := by
  have hd : (q.den : ℚ) ≠ 0 := by
    exact_mod_cast q.den_pos.ne'
  have hne : ((2 * q.den : ℕ) : ℚ) ≠ 0 := by
    push_cast
    positivity
  have hnum := Rat.num_div_den q
  rw [div_eq_iff hd] at hnum
  have hq : q * 255 + 1 / 2 =
      (((510 * q.num + (q.den : ℤ)) : ℤ) : ℚ) / ((2 * q.den : ℕ) : ℚ) := by
    rw [eq_div_iff hne]
    push_cast
    linear_combination (-510 : ℚ) * hnum
  rw [hq, Rat.floor_intCast_div_natCast, jsRound255,
    Int.fdiv_eq_ediv _ (by positivity)]
  congr 1

theorem jsRound255_eq_255_iff (q : ℚ) (h1 : q ≤ 1) :
    jsRound255 q = 255 ↔ 509 / 510 ≤ q := by
  rw [jsRound255_eq_floor]
  constructor
  · intro h
    have hle : ((255 : ℤ) : ℚ) ≤ q * 255 + 1 / 2 := by
      rw [← h]
      exact Int.floor_le (q * 255 + 1 / 2)
    push_cast at hle
    linarith
  · intro h
    have hlb : (255 : ℤ) ≤ ⌊q * 255 + 1 / 2⌋ := by
      apply Int.le_floor.2
      push_cast
      linarith
    have hub : ⌊q * 255 + 1 / 2⌋ < 256 := by
      apply Int.floor_lt.2
      push_cast
      linarith
    omega

/-- Claim C9: the claim says the hex/rgba choice is made at
`alpha ≥ 0.999`.  The code rounds the alpha to a byte first and emits
hex whenever that byte is 255, i.e. already for `alpha ≥ 509/510 ≈
0.99804`: with alpha `0.9985 < 0.999` the output is the hex string
`#000000`, not an `rgba(...)` string. -/
theorem C9_counterexample :
    (Rat.mk' 1997 2000 : ℚ) < 999 / 1000 ∧
    getVariableValueForMode c9Var
      (.color 0 0 0 (some (Rat.mk' 1997 2000))) [] = "#000000" ∧
    strStartsWith "#000000" "rgba" = false := by
  refine ⟨?_, rfl, rfl⟩
  rw [Rat.mk'_eq_divInt, Rat.divInt_eq_div]
  norm_num

/-- Claim C9 (amended): for a Color-kind variable with an RGBA raw
value whose channels lie in `[0,1]`, each channel is rounded to a byte
via `Math.round(channel * 255)`; the result is the 6-digit lowercase
hex string exactly when the *rounded alpha byte* is 255, i.e. when
`alpha ≥ 509/510` (not 0.999), and otherwise the `rgba(r, g, b, a)`
string whose alpha component is the rounded byte divided by 255 and
formatted with two decimal places. -/
theorem C9_amended (v : Variable) (r g b a : ℚ) (vars : List Variable)
    (hv : v.resolvedType = .COLOR) (h1 : a ≤ 1) :
    (509 / 510 ≤ a →
      getVariableValueForMode v (.color r g b (some a)) vars =
        "#" ++ hex2 (jsRound255 r) ++ hex2 (jsRound255 g) ++
          hex2 (jsRound255 b)) ∧
    (a < 509 / 510 →
      getVariableValueForMode v (.color r g b (some a)) vars =
        "rgba(" ++ intToDec (jsRound255 r) ++ ", " ++ intToDec (jsRound255 g) ++
          ", " ++ intToDec (jsRound255 b) ++ ", " ++
          fixed2OfByte (jsRound255 a) ++ ")") := by
  constructor
  · intro h
    have hab : jsRound255 a = 255 := (jsRound255_eq_255_iff a h1).2 h
    simp [getVariableValueForMode, hv, colorString, hab]
  · intro h
    have hab : ¬ jsRound255 a = 255 := by
      intro hc
      exact absurd ((jsRound255_eq_255_iff a h1).1 hc) (not_le.2 h)
    simp [getVariableValueForMode, hv, colorString, hab]

/-- Witness for C9 (amended): pure red at alpha one half falls in the
rgba branch. -/
theorem C9_witness :
    getVariableValueForMode c9Var (.color 1 0 0 (some (1 / 2))) [] =
      "rgba(" ++ intToDec (jsRound255 1) ++ ", " ++ intToDec (jsRound255 0) ++
        ", " ++ intToDec (jsRound255 0) ++ ", " ++
        fixed2OfByte (jsRound255 (1 / 2)) ++ ")" :=
  (C9_amended c9Var 1 0 0 (1 / 2) [] rfl (by norm_num)).2 (by norm_num)

theorem colorInner_fst_eq (l : List (String × J))
    (h : ∀ te ∈ l, isLiteralColorToken te.2 = false) :
    ∀ acc2 : List (String × J) × List (String × J),
      (l.foldl colorInnerStep acc2).1 = acc2.1 := by
  induction l with
  | nil => intro acc2; rfl
  | cons te l' ih =>
    intro acc2
    rw [List.foldl_cons, ih (fun x hx => h x (by simp [hx]))]
    rw [colorInnerStep, h te (by simp)]
    simp

theorem colorOuter_fst (tokens : List (String × J))
    (h : noDirectLiteralColor tokens = true) :
    ∀ acc : List (String × J) × List (String × J),
      (tokens.foldl colorOuterStep acc).1 = acc.1 := by
  induction tokens with
  | nil => intro; rfl
  | cons entry rest ih =>
    intro acc
    rw [noDirectLiteralColor, List.all_cons, Bool.and_eq_true] at h
    obtain ⟨hentry, hrest⟩ := h
    rw [List.foldl_cons, ih hrest]
    rcases entry with ⟨ek, ev⟩
    cases ev with
    | str s => rfl
    | obj cf =>
      rw [colorOuterStep]
      dsimp only
      by_cases ht : jhasKey cf "$type"
      · simp [ht]
      · have hch : ∀ te ∈ cf, isLiteralColorToken te.2 = false := by
          dsimp only at hentry
          rw [Bool.or_eq_true] at hentry
          rcases hentry with hentry | hentry
          · exact absurd hentry (by simpa using ht)
          · rw [List.all_eq_true] at hentry
            intro te hte
            have := hentry te hte
            simpa using this
        simp [ht, colorInner_fst_eq cf hch]

/-- Claim C10: the claim says every literal-valued color token from
every collection is moved under a root `colors` group.  The code only
examines the *direct* children of each collection's top-level group: a
literal hex color token nested one group deeper (the common case,
produced by any dotted variable name) is not moved, and the tree is
returned completely unchanged with no root `colors` group at all. -/
theorem C10_counterexample :
    groupAllColorsAtRoot c10Input = c10Input ∧
    alookup c10Input "colors" = none ∧
    isLiteralColorToken c10Token = true := by
  exact ⟨rfl, rfl, rfl⟩

/-- Claim C10 (amended): the rewrite moves exactly the literal-valued
color tokens that are *direct* children of a collection's top-level
group into the root `colors` group (keyed by collection, `$type`
removed), leaves alias-valued color tokens outside it, and when no
collection has such a direct literal color child the whole tree is
returned unchanged — deeper-nested color tokens are never moved. -/
theorem C10_amended :
    (∀ tokens : List (String × J), noDirectLiteralColor tokens = true →
      groupAllColorsAtRoot tokens = tokens) ∧
    (∀ (ck k1 k2 : String) (t1 t2 : J),
      isLiteralColorToken t1 = true → isLiteralColorToken t2 = false →
      ck ≠ "$type" → ck ≠ "colors" → k1 ≠ "$type" → k2 ≠ "$type" →
      (∀ c ∈ k1.data, (c == '/') = false) →
      (∀ c ∈ k2.data, (c == '/') = false) →
      groupAllColorsAtRoot [(ck, J.obj [(k1, t1), (k2, t2)])] =
        [("colors", J.obj [("$type", J.str "color"),
            (ck, J.obj [(k1, cleanToken t1)])]),
         (ck, J.obj [(k2, t2)])]) := by
  constructor
  · intro tokens h
    rw [groupAllColorsAtRoot]
    simp [colorOuter_fst tokens h]
  · intro ck k1 k2 t1 t2 h1 h2 hck1 hck2 hk1t hk2t hk1 hk2
    have hsplit1 : splitChars (fun c => c == '/') k1 = [k1] :=
      splitChars_eq_single _ _ hk1
    have hsplit2 : splitChars (fun c => c == '/') k2 = [k2] :=
      splitChars_eq_single _ _ hk2
    rw [groupAllColorsAtRoot]
    simp only [List.foldl_cons, List.foldl_nil, colorOuterStep, colorInnerStep]
    simp [jhasKey, alookup, hk1t, hk2t, h1, h2, hsplit1, hsplit2,
      insertFields, insertSimplePath, aset, Ne.symm hck1, Ne.symm hck2]

/-- Witness for C10 (amended): the nested-color tree is returned
unchanged, and a direct-child literal color token is moved under the
root `colors` group with its `$type` removed while the alias-valued
color token stays outside. -/
theorem C10_witness :
    groupAllColorsAtRoot [("c", J.obj [("red", c10Token), ("ref", c10Alias)])] =
      [("colors", J.obj [("$type", J.str "color"),
          ("c", J.obj [("red", cleanToken c10Token)])]),
       ("c", J.obj [("ref", c10Alias)])] ∧
    groupAllColorsAtRoot c10Input = c10Input :=
  ⟨C10_amended.2 "c" "red" "ref" c10Token c10Alias rfl rfl (by decide)
      (by decide) (by decide) (by decide) (by decide) (by decide),
   C10_amended.1 c10Input rfl⟩
